import Mathlib

/-!
Verification of the shared grocery-list application: item parser,
categorizer, frequent-item recommender, and the Skylight reconciliation
pass (push / pull / delete sync) are embedded as pure Lean functions,
translated from the TypeScript and JavaScript sources.
-/

namespace SharedList

/-! ## Character and string helpers

The JS sources use `String.prototype.toLowerCase`, `trim`, and the `\s`
and `\w` regex classes.  We model strings as Lean `String`s and work on
their underlying `List Char` where scanning is needed.  Lowercasing is
ASCII (all relevant source data is ASCII). -/

/-- JS whitespace characters relevant here (space, tab, newline, carriage
return, vertical tab, form feed). -/
def isSpaceJS (c : Char) : Bool :=
  c = ' ' || c = '\t' || c = '\n' || c = '\r' || c = '\x0b' || c = '\x0c'

/-- Trim JS whitespace from both ends of a character list. -/
def trimJS (l : List Char) : List Char :=
  ((l.dropWhile isSpaceJS).reverse.dropWhile isSpaceJS).reverse

/-- `s.toLowerCase()` (ASCII). -/
def lowerS (s : String) : String :=
  ⟨s.data.map Char.toLower⟩

/-- `s.toLowerCase().trim()` — the normalized-name key used by the sync
code for cross-store equality. -/
def normName (s : String) : String :=
  ⟨trimJS (s.data.map Char.toLower)⟩

/-- Membership of a string in a list of strings, as a boolean (models the
JS `Set.has` on string sets). -/
def containsStr (l : List String) (s : String) : Bool :=
  l.any (fun x => x = s)

theorem containsStr_iff (l : List String) (s : String) :
    containsStr l s = true ↔ s ∈ l := by
  simp [containsStr, List.any_eq_true]

/-! ## Categorizer

`autoCategorize` in `receive-sms/index.ts` and `sync-from-skylight/index.ts`
tests ten keyword regexes against the lowercased name, in a fixed order,
and returns the first matching category (or the empty string).  Every
alternative in those regexes is a literal, optionally with a leading
or trailing word boundary and an optional trailing `s` before the
trailing boundary.  `RePat` captures exactly that shape. -/

/-- One regex alternative: a literal, with optional left word boundary,
optional `s?` after the literal, optional right word boundary. -/
structure RePat where
  pre : Bool
  lit : String
  optS : Bool
  post : Bool
deriving DecidableEq, Repr

/-- A plain literal alternative (substring match). -/
def pLit (s : String) : RePat := ⟨false, s, false, false⟩

/-- A literal followed by a word boundary, e.g. `bun\b`. -/
def pEnd (s : String) : RePat := ⟨false, s, false, true⟩

/-- A literal with optional `s` then a word boundary, e.g. `rolls?\b`. -/
def pOptS (s : String) : RePat := ⟨false, s, true, true⟩

/-- A literal inside word boundaries both sides, e.g. `\btea\b`. -/
def pBoth (s : String) : RePat := ⟨true, s, false, true⟩

/-- JS `\w`: ASCII letter, digit, or underscore. -/
def wordChar (c : Char) : Bool :=
  c.isAlpha || c.isDigit || c = '_'

/-- Consume `lit` as a prefix of `s`, returning the rest. -/
def litConsume : List Char → List Char → Option (List Char)
  | [], rest => some rest
  | _ :: _, [] => none
  | p :: ps, c :: cs => if p = c then litConsume ps cs else none

/-- A word boundary holds before `rest` when `rest` is empty or starts
with a non-word character. -/
def boundaryAfter : List Char → Bool
  | [] => true
  | c :: _ => !wordChar c

/-- Does the alternative match starting exactly here?  `prevOk` records
whether a word boundary holds before this position. -/
def patHere (p : RePat) (prevOk : Bool) (s : List Char) : Bool :=
  (!p.pre || prevOk) &&
    match litConsume p.lit.data s with
    | none => false
    | some rest =>
      if p.post then
        boundaryAfter rest ||
          (p.optS && (match rest with
            | 's' :: r => boundaryAfter r
            | _ => false))
      else true

/-- Search the alternative at every position (regex `test`). -/
def patSearch (p : RePat) : Bool → List Char → Bool
  | prevOk, [] => patHere p prevOk []
  | prevOk, c :: cs => patHere p prevOk (c :: cs) || patSearch p (!wordChar c) cs

/-- `regex.test(s)` for an alternation of simple patterns. -/
def reTest (pats : List RePat) (s : String) : Bool :=
  pats.any (fun p => patSearch p true s.data)

def bakeryPats : List RePat :=
  [pLit "bread", pEnd "bun", pOptS "roll", pLit "bagel", pLit "croissant",
   pLit "muffin", pLit "donut", pEnd "cake", pLit "cookie", pLit "pastry",
   pLit "biscuit", pLit "scone", pLit "waffle", pLit "pancake",
   pLit "tortilla", pLit "pita"]

def cheesePats : List RePat :=
  [pLit "cheese", pLit "cheddar", pLit "mozzarella", pLit "parmesan",
   pLit "brie", pLit "feta", pLit "gouda", pLit "swiss", pLit "provolone"]

def meatPats : List RePat :=
  [pLit "chicken", pLit "beef", pLit "pork", pLit "fish", pLit "turkey",
   pLit "lamb", pLit "meat", pLit "steak", pLit "bacon", pLit "sausage",
   pLit "hamburger", pEnd "ham", pLit "salmon", pLit "tuna", pLit "shrimp",
   pOptS "rib", pLit "roast", pLit "brisket", pLit "chop", pLit "wing",
   pLit "thigh", pLit "breast", pLit "drumstick", pEnd "ground",
   pLit "hot dog", pLit "bratwurst", pLit "jerky", pLit "veal",
   pLit "venison"]

def pantryPats : List RePat :=
  [pLit "rice", pLit "pasta", pLit "bean", pLit "soup", pLit "sauce",
   pEnd "oil", pLit "vinegar", pLit "spice", pLit "flour", pLit "sugar",
   pEnd "salt", pLit "pepper", pLit "cereal", pLit "oat", pLit "jar",
   pLit "noodle", pLit "pickle", pLit "canned", pLit "broth",
   pLit "ketchup", pLit "mustard", pLit "mayo", pLit "honey", pLit "syrup",
   pLit "peanut butter", pLit "jelly", pLit "jam"]

def dairyPats : List RePat :=
  [pLit "milk", pLit "yogurt", pLit "butter", pEnd "cream", pOptS "egg"]

def producePats : List RePat :=
  [pLit "apple", pLit "banana", pLit "orange", pLit "grape", pLit "berry",
   pLit "lettuce", pLit "tomato", pLit "potato", pLit "onion",
   pLit "carrot", pLit "celery", pLit "spinach", pLit "kale",
   pLit "broccoli", pLit "cucumber", pLit "bell pepper", pLit "jalape",
   pLit "fruit", pLit "vegetable", pLit "avocado", pLit "lemon",
   pLit "lime", pLit "garlic", pLit "mushroom", pLit "zucchini",
   pLit "squash", pEnd "corn", pOptS "pea", pLit "peach", pEnd "pear",
   pLit "plum", pLit "mango", pLit "melon", pLit "watermelon",
   pLit "cantaloupe", pLit "pineapple", pLit "cherry", pLit "cabbage",
   pLit "cauliflower", pLit "asparagus", pLit "radish", pLit "beet",
   pLit "turnip", pLit "herb", pLit "cilantro", pLit "parsley",
   pLit "basil", pLit "ginger", pLit "green onion", pLit "scallion"]

def frozenPats : List RePat :=
  [pLit "frozen", pLit "ice cream", pLit "pizza", pLit "fries",
   pLit "popsicle"]

def beveragePats : List RePat :=
  [pEnd "water", pLit "juice", pLit "soda", pLit "coffee", pBoth "tea",
   pEnd "wine", pLit "beer", pLit "kombucha", pLit "drink",
   pLit "sparkling"]

def snackPats : List RePat :=
  [pOptS "chip", pLit "cracker", pOptS "nut", pLit "popcorn",
   pLit "pretzel", pLit "trail mix", pLit "granola", pLit "candy",
   pLit "chocolate"]

def householdPats : List RePat :=
  [pLit "soap", pLit "detergent", pEnd "paper", pLit "towel",
   pLit "tissue", pLit "trash", pOptS "bag", pLit "sponge",
   pLit "cleaner", pLit "bleach", pEnd "wrap", pLit "foil",
   pLit "plastic"]

/-- `autoCategorize(itemName)`: lowercase the name, then return the first
category whose keyword regex matches, in the source order bakery, cheese,
meat, pantry, dairy, produce, frozen, beverages, snacks, household; empty
string if none match. -/
def autoCategorize (itemName : String) : String :=
  let name := lowerS itemName
  if reTest bakeryPats name then "bakery"
  else if reTest cheesePats name then "cheese"
  else if reTest meatPats name then "meat"
  else if reTest pantryPats name then "pantry"
  else if reTest dairyPats name then "dairy"
  else if reTest producePats name then "produce"
  else if reTest frozenPats name then "frozen"
  else if reTest beveragePats name then "beverages"
  else if reTest snackPats name then "snacks"
  else if reTest householdPats name then "household"
  else ""

/-- First-match lookup in an override table, modelling the JS record
access `overrides[key]` on the record built by `loadCategoryOverrides`
(first occurrence wins). -/
def lookupOverride : List (String × String) → String → Option String
  | [], _ => none
  | (k, v) :: rest, key => if k = key then some v else lookupOverride rest key

/-- `categorizeItem(itemName, overrides)` from `receive-sms/index.ts`:
`if (overrides[key]) return overrides[key]; return autoCategorize(itemName)`.
The JS truthiness test means an override whose category is the empty
string falls through to keyword matching. -/
def categorizeItem (itemName : String) (overrides : List (String × String)) : String :=
  let key := lowerS itemName
  match lookupOverride overrides key with
  | some c => if c = "" then autoCategorize itemName else c
  | none => autoCategorize itemName

/-! ## Item parser

`parseItems` in `receive-sms/index.ts`: normalize bracket variants to
ASCII parentheses, split on commas and newlines with a depth-tracked scan
(no split inside parentheses), trim, drop empty and overlength tokens,
then extract a parenthesized notes suffix with the regex
`^(.+?)\s*\((.+?)\)\s*$` (lazy groups, dot excludes newline). -/

structure ParsedItem where
  name : String
  notes : String
deriving DecidableEq, Repr

/-- Normalize fullwidth, small-form and square bracket characters to
ASCII parentheses. -/
def normBracket (c : Char) : Char :=
  if c = Char.ofNat 0xFF08 then '('
  else if c = Char.ofNat 0xFF09 then ')'
  else if c = Char.ofNat 0xFE59 then '('
  else if c = Char.ofNat 0xFE5A then ')'
  else if c = '[' then '('
  else if c = ']' then ')'
  else c

/-- Depth-tracked splitter: a comma or newline at depth zero ends the
current token; an opening parenthesis raises the depth; a closing one at
positive depth lowers it; every non-separator character is kept. -/
def splitTokens (depth : Nat) (current : List Char) : List Char → List (List Char)
  | [] => [current.reverse]
  | c :: rest =>
    if c = '(' then splitTokens (depth + 1) (c :: current) rest
    else if c = ')' && depth > 0 then splitTokens (depth - 1) (c :: current) rest
    else if depth = 0 && (c = ',' || c = '\n') then
      current.reverse :: splitTokens 0 [] rest
    else splitTokens depth (c :: current) rest

/-- Scan for the lazy notes group: the first `)` with nonempty content so
far and only whitespace after it closes the group; a newline cannot occur
inside the group (regex dot). -/
def closeNotes (acc : List Char) : List Char → Option (List Char)
  | [] => none
  | c :: rest =>
    if c = ')' && !acc.isEmpty && rest.all isSpaceJS then some acc.reverse
    else if c = '\n' then none
    else closeNotes (c :: acc) rest

/-- Backtracking search for the split of a token into a name and a
parenthesized notes suffix, growing the lazy name group one character at
a time: after the name, `\s*` is consumed greedily, a `(` must follow,
and `closeNotes` must succeed on the remainder. -/
def nameSplit (nameRev : List Char) : List Char → Option (List Char × List Char)
  | [] => none
  | c :: rest =>
    if c = '\n' then none
    else
      let nameRev2 := c :: nameRev
      match rest.dropWhile isSpaceJS with
      | '(' :: inner =>
        (match closeNotes [] inner with
         | some notes => some (nameRev2.reverse, notes)
         | none => nameSplit nameRev2 rest)
      | _ => nameSplit nameRev2 rest

/-- `parseItems(body)`: the full parser pipeline. -/
def parseItems (body : String) : List ParsedItem :=
  let normalized := body.data.map normBracket
  let raw := splitTokens 0 [] normalized
  let toks := (raw.map trimJS).filter (fun t => t.length > 0 && t.length < 100)
  toks.map (fun t =>
    match nameSplit [] t with
    | some (n, notes) => ⟨⟨trimJS n⟩, ⟨trimJS notes⟩⟩
    | none => ⟨⟨t⟩, ""⟩)

/-! ## Reconciliation pass

State per pass: the app list rows relevant to the sync
(`name`, `category`, `is_checked`, `notes`) and the Skylight item
snapshot (`label`, `status`).  The edge function
`sync-from-skylight/index.ts` performs, in source order, the delete sync
(rows with notes `"From Skylight"`, unchecked, whose normalized name is
absent from the full fetched snapshot) and then the insert loop (every
fetched item not marked `"complete"` whose normalized name is not among
the pre-pass app names, inserted unchecked, auto-categorized, with notes
`"From Skylight"`). -/

structure SkylightItem where
  label : String
  status : String
deriving DecidableEq, Repr

structure GroceryItem where
  name : String
  category : String
  is_checked : Bool
  notes : String
deriving DecidableEq, Repr

/-- `allSkylightNames`: normalized labels of the whole fetched snapshot
(checked and unchecked), the reference set for the delete sync. -/
def allSkylightNames (ext : List SkylightItem) : List String :=
  ext.map (fun i => normName i.label)

/-- `incompleteItems`: fetched items whose status is not `"complete"`. -/
def incompleteItems (ext : List SkylightItem) : List SkylightItem :=
  ext.filter (fun i => !decide (i.status = "complete"))

/-- `existingNames`: normalized names of every row already on the app
list (checked and unchecked). -/
def existingNames (app : List GroceryItem) : List String :=
  app.map (fun i => normName i.name)

/-- `newItems`: fetched incomplete items whose normalized label is not
already an app-list name. -/
def newItems (app : List GroceryItem) (ext : List SkylightItem) : List SkylightItem :=
  (incompleteItems ext).filter
    (fun i => !containsStr (existingNames app) (normName i.label))

/-- Is this row eligible for the delete sync: synced from Skylight
(notes field holds the provenance marker) and unchecked? -/
def isSyncedUnchecked (a : GroceryItem) : Bool :=
  decide (a.notes = "From Skylight") && !a.is_checked

/-- `itemsToDelete`: eligible rows whose normalized name is absent from
the fetched snapshot. -/
def itemsToDelete (app : List GroceryItem) (ext : List SkylightItem) : List GroceryItem :=
  (app.filter isSyncedUnchecked).filter
    (fun a => !containsStr (allSkylightNames ext) (normName a.name))

/-- App rows surviving the delete sync (the delete removes exactly the
rows of `itemsToDelete`). -/
def deleteSurvivors (app : List GroceryItem) (ext : List SkylightItem) : List GroceryItem :=
  app.filter (fun a =>
    !(isSyncedUnchecked a && !containsStr (allSkylightNames ext) (normName a.name)))

/-- The row inserted by the pull loop for a fetched item: unchecked,
auto-categorized, notes `"From Skylight"`. -/
def mkPulled (i : SkylightItem) : GroceryItem :=
  { name := i.label, category := autoCategorize i.label,
    is_checked := false, notes := "From Skylight" }

/-- Rows inserted by the pull loop. -/
def pulledItems (app : List GroceryItem) (ext : List SkylightItem) : List GroceryItem :=
  (newItems app ext).map mkPulled

/-- Effect of one run of the `sync-from-skylight` edge function on the
app item set, given a successfully fetched snapshot `ext`: delete sync
then insert loop. -/
def syncFromSkylightApp (app : List GroceryItem) (ext : List SkylightItem) : List GroceryItem :=
  deleteSurvivors app ext ++ pulledItems app ext

/-- One edge-function run with the fetch outcome made explicit: a failed
fetch (`none`) raises before any database write, leaving the app list
unchanged; a successful fetch runs the pass on the snapshot. -/
def runEdgePass : Option (List SkylightItem) → List GroceryItem → List GroceryItem
  | none, app => app
  | some ext, app => syncFromSkylightApp app ext

/-- Combined state for the client-side pass in `syncFromSkylight`
(part_005): the app list rows and the Skylight item set. -/
structure SyncState where
  app : List GroceryItem
  ext : List SkylightItem
deriving DecidableEq, Repr

/-- Labels the client pushes in step 2: the names of every unchecked
item of its (pre-pass) item cache, with no dedup against Skylight. -/
def pushedLabels (app : List GroceryItem) : List String :=
  (app.filter (fun i => !i.is_checked)).map (fun i => i.name)

/-- Adding labels to Skylight (the `sync-skylight` edge function adds
every requested label unconditionally; new items are active). -/
def addToSkylight (ext : List SkylightItem) (labels : List String) : List SkylightItem :=
  ext ++ labels.map (fun n => { label := n, status := "incomplete" })

/-- One full client-side reconciliation pass (`syncFromSkylight` in
part_005): step 1 calls the `sync-from-skylight` edge function (pull and
delete against the fetched snapshot), step 2 pushes every unchecked item
of the pre-pass cache to Skylight. -/
def fullSyncPass (s : SyncState) : SyncState :=
  { app := syncFromSkylightApp s.app s.ext,
    ext := addToSkylight s.ext (pushedLabels s.app) }

/-! ## Helper lemmas about the reconciliation pass -/

theorem containsStr_eq_false {l : List String} {s : String} :
    containsStr l s = false ↔ s ∉ l := by
  rw [← containsStr_iff]
  cases h : containsStr l s <;> simp [h]

theorem mem_deleteSurvivors {a : GroceryItem} {app : List GroceryItem}
    {ext : List SkylightItem} :
    a ∈ deleteSurvivors app ext ↔
      a ∈ app ∧ (a.notes = "From Skylight" → a.is_checked = false →
        normName a.name ∈ allSkylightNames ext) := by
  simp only [deleteSurvivors, List.mem_filter]
  refine and_congr_right fun _ => ?_
  constructor
  · intro h hn hc
    by_contra hx
    have hx2 := containsStr_eq_false.mpr hx
    simp [isSyncedUnchecked, hn, hc, hx2] at h
  · intro h
    by_cases hn : a.notes = "From Skylight"
    · by_cases hc : a.is_checked
      · simp [isSyncedUnchecked, hc]
      · have hmem := h hn (by simpa using hc)
        have hx := (containsStr_iff _ _).mpr hmem
        simp [isSyncedUnchecked, hn, hc, hx]
    · simp [isSyncedUnchecked, hn]

theorem mem_newItems {e : SkylightItem} {app : List GroceryItem}
    {ext : List SkylightItem} :
    e ∈ newItems app ext ↔
      e ∈ ext ∧ e.status ≠ "complete" ∧ normName e.label ∉ existingNames app := by
  simp only [newItems, incompleteItems, List.mem_filter, Bool.not_eq_true',
    decide_eq_false_iff_not, containsStr_eq_false]
  tauto

theorem pulled_norm_mem {p : GroceryItem} {app : List GroceryItem}
    {ext : List SkylightItem} (hp : p ∈ pulledItems app ext) :
    normName p.name ∈ allSkylightNames ext ∧ p.notes = "From Skylight" ∧
      p.is_checked = false := by
  simp only [pulledItems, List.mem_map] at hp
  obtain ⟨i, hi, rfl⟩ := hp
  obtain ⟨hie, -, -⟩ := mem_newItems.mp hi
  exact ⟨List.mem_map.mpr ⟨i, hie, rfl⟩, rfl, rfl⟩

theorem survive_of_keep {a : GroceryItem} {app : List GroceryItem}
    {ext : List SkylightItem} (ha : a ∈ app)
    (h : a.notes = "From Skylight" → a.is_checked = false →
      normName a.name ∈ allSkylightNames ext) :
    a ∈ syncFromSkylightApp app ext :=
  List.mem_append.mpr (Or.inl (mem_deleteSurvivors.mpr ⟨ha, h⟩))

theorem deleted_of_absent {a : GroceryItem} {app : List GroceryItem}
    {ext : List SkylightItem} (hn : a.notes = "From Skylight")
    (hc : a.is_checked = false)
    (habs : normName a.name ∉ allSkylightNames ext) :
    a ∉ syncFromSkylightApp app ext := by
  intro hmem
  rcases List.mem_append.mp hmem with h | h
  · exact habs ((mem_deleteSurvivors.mp h).2 hn hc)
  · exact habs (pulled_norm_mem h).1

theorem pull_mem_of_new {e : SkylightItem} {app : List GroceryItem}
    {ext : List SkylightItem} (he : e ∈ ext) (hs : e.status ≠ "complete")
    (habs : normName e.label ∉ existingNames app) :
    mkPulled e ∈ syncFromSkylightApp app ext :=
  List.mem_append.mpr (Or.inr (List.mem_map.mpr
    ⟨e, mem_newItems.mpr ⟨he, hs, habs⟩, rfl⟩))

theorem allSkylightNames_addToSkylight (ext : List SkylightItem)
    (labels : List String) :
    allSkylightNames (addToSkylight ext labels) =
      allSkylightNames ext ++ labels.map normName := by
  simp [allSkylightNames, addToSkylight, List.map_map, Function.comp]

theorem pushed_name_mem {a : GroceryItem} {app : List GroceryItem}
    (ha : a ∈ app) (hc : a.is_checked = false) :
    a.name ∈ pushedLabels app := by
  exact List.mem_map.mpr ⟨a, List.mem_filter.mpr ⟨ha, by simp [hc]⟩, rfl⟩

theorem norm_mem_fullPass_ext {a : GroceryItem} {s : SyncState}
    (ha : a ∈ s.app) (hc : a.is_checked = false) :
    normName a.name ∈ allSkylightNames (fullSyncPass s).ext := by
  show normName a.name ∈ allSkylightNames (addToSkylight s.ext (pushedLabels s.app))
  rw [allSkylightNames_addToSkylight]
  exact List.mem_append.mpr (Or.inr
    (List.mem_map.mpr ⟨a.name, pushed_name_mem ha hc, rfl⟩))

theorem survivorPred_eq_true {a : GroceryItem} {ext : List SkylightItem}
    (h : a.notes = "From Skylight" → a.is_checked = false →
      normName a.name ∈ allSkylightNames ext) :
    (!(isSyncedUnchecked a &&
        !containsStr (allSkylightNames ext) (normName a.name))) = true := by
  by_cases hn : a.notes = "From Skylight"
  · by_cases hc : a.is_checked
    · simp [isSyncedUnchecked, hc]
    · have hx := (containsStr_iff _ _).mpr (h hn (by simpa using hc))
      simp [isSyncedUnchecked, hx]
  · simp [isSyncedUnchecked, hn]

theorem deleteSurvivors_eq_self {app : List GroceryItem}
    {ext : List SkylightItem}
    (h : ∀ a ∈ app, a.notes = "From Skylight" → a.is_checked = false →
      normName a.name ∈ allSkylightNames ext) :
    deleteSurvivors app ext = app :=
  List.filter_eq_self.mpr fun a ha => survivorPred_eq_true (h a ha)

theorem itemsToDelete_nil_iff {app : List GroceryItem}
    {ext : List SkylightItem} :
    itemsToDelete app ext = [] ↔
      ∀ a ∈ app, a.notes = "From Skylight" → a.is_checked = false →
        normName a.name ∈ allSkylightNames ext := by
  rw [itemsToDelete, List.filter_eq_nil_iff]
  constructor
  · intro h a ha hn hc
    by_contra hx
    exact h a (List.mem_filter.mpr ⟨ha, by simp [isSyncedUnchecked, hn, hc]⟩)
      (by simp [containsStr_eq_false.mpr hx])
  · intro h a ha hcontra
    obtain ⟨ha2, hsync⟩ := List.mem_filter.mp ha
    simp only [isSyncedUnchecked, Bool.and_eq_true, decide_eq_true_eq,
      Bool.not_eq_true'] at hsync
    have := (containsStr_iff _ _).mpr (h a ha2 hsync.1 hsync.2)
    simp [this] at hcontra

theorem allSkylightNames_mono {x : String} {ext : List SkylightItem}
    {labels : List String} (hx : x ∈ allSkylightNames ext) :
    x ∈ allSkylightNames (addToSkylight ext labels) := by
  rw [allSkylightNames_addToSkylight]
  exact List.mem_append.mpr (Or.inl hx)

theorem existingNames_append (l₁ l₂ : List GroceryItem) :
    existingNames (l₁ ++ l₂) = existingNames l₁ ++ existingNames l₂ := by
  simp [existingNames]

theorem mem_fullPass_app_names {s : SyncState} {a : GroceryItem}
    (ha : a ∈ (fullSyncPass s).app) :
    a.notes = "From Skylight" → a.is_checked = false →
      normName a.name ∈ allSkylightNames s.ext := by
  intro hn hc
  rcases List.mem_append.mp ha with h | h
  · exact (mem_deleteSurvivors.mp h).2 hn hc
  · exact (pulled_norm_mem h).1

/-- A second pass deletes nothing: every app row present after the first
full pass is still present after a second full pass. -/
theorem second_pass_superset {s : SyncState} {a : GroceryItem}
    (ha : a ∈ (fullSyncPass s).app) :
    a ∈ (fullSyncPass (fullSyncPass s)).app :=
  survive_of_keep ha fun hn hc =>
    allSkylightNames_mono (mem_fullPass_app_names ha hn hc)

theorem second_pass_app_eq {s : SyncState}
    (hd : itemsToDelete s.app s.ext = []) :
    (fullSyncPass (fullSyncPass s)).app = (fullSyncPass s).app := by
  have hkeep := itemsToDelete_nil_iff.mp hd
  have hsurv : deleteSurvivors s.app s.ext = s.app := deleteSurvivors_eq_self hkeep
  have happ1 : (fullSyncPass s).app = s.app ++ pulledItems s.app s.ext := by
    show syncFromSkylightApp s.app s.ext = _
    rw [syncFromSkylightApp, hsurv]
  have hext1 : (fullSyncPass s).ext = addToSkylight s.ext (pushedLabels s.app) := rfl
  have hnew : newItems (fullSyncPass s).app (fullSyncPass s).ext = [] := by
    rw [newItems, List.filter_eq_nil_iff]
    intro e he
    simp only [incompleteItems, List.mem_filter, Bool.not_eq_true',
      decide_eq_false_iff_not] at he
    obtain ⟨he1, hs⟩ := he
    rw [hext1] at he1
    suffices hmem : normName e.label ∈ existingNames (fullSyncPass s).app by
      simp [(containsStr_iff _ _).mpr hmem]
    rcases List.mem_append.mp he1 with hce | hcp
    · by_cases hx : normName e.label ∈ existingNames s.app
      · rw [happ1, existingNames_append]
        exact List.mem_append.mpr (Or.inl hx)
      · have hpull : mkPulled e ∈ pulledItems s.app s.ext :=
          List.mem_map.mpr ⟨e, mem_newItems.mpr ⟨hce, hs, hx⟩, rfl⟩
        rw [happ1, existingNames_append]
        exact List.mem_append.mpr (Or.inr (List.mem_map.mpr ⟨mkPulled e, hpull, rfl⟩))
    · obtain ⟨n, hn, rfl⟩ := List.mem_map.mp hcp
      obtain ⟨b, hb, rfl⟩ := List.mem_map.mp hn
      have hbmem : b ∈ s.app := (List.mem_filter.mp hb).1
      rw [happ1, existingNames_append]
      exact List.mem_append.mpr (Or.inl (List.mem_map.mpr ⟨b, hbmem, rfl⟩))
  have hsurv2 : deleteSurvivors (fullSyncPass s).app (fullSyncPass s).ext =
      (fullSyncPass s).app := by
    refine deleteSurvivors_eq_self fun a ha hn hc => ?_
    rw [hext1]
    exact allSkylightNames_mono (mem_fullPass_app_names ha hn hc)
  show syncFromSkylightApp (fullSyncPass s).app (fullSyncPass s).ext = _
  rw [syncFromSkylightApp, hsurv2, pulledItems, hnew]
  simp

/-! ## Claim theorems: reconciliation -/

/-- C1 counterexample: the pass does not run the push phase first.  An
App-only unchecked item (carrying the sync marker) is erased during the
pass even though nothing deleted it externally, because step 1 (the edge
function with its delete sync) runs before step 2 (the push). -/
theorem claim1_push_before_delete_cex :
    (⟨"milk", "dairy", false, "From Skylight"⟩ : GroceryItem) ∈
      ({ app := [⟨"milk", "dairy", false, "From Skylight"⟩], ext := [] } : SyncState).app ∧
    normName "milk" ∉ allSkylightNames ([] : List SkylightItem) ∧
    (⟨"milk", "dairy", false, "From Skylight"⟩ : GroceryItem) ∉
      (fullSyncPass { app := [⟨"milk", "dairy", false, "From Skylight"⟩], ext := [] }).app := by
  decide

/-- C1 (amended): in one client reconciliation pass the delete phase
(step 1, inside the edge function, keyed off the pre-push snapshot) runs
before the push phase (step 2).  Consequently an unchecked app item
carrying the sync marker whose normalized name is absent from the
snapshot is erased during the pass even though the push still re-adds its
name to the external list in the same pass. -/
theorem claim1_delete_before_push (s : SyncState) (a : GroceryItem)
    (ha : a ∈ s.app) (hn : a.notes = "From Skylight")
    (hc : a.is_checked = false)
    (habs : normName a.name ∉ allSkylightNames s.ext) :
    a ∉ (fullSyncPass s).app ∧
      normName a.name ∈ allSkylightNames (fullSyncPass s).ext :=
  ⟨deleted_of_absent hn hc habs, norm_mem_fullPass_ext ha hc⟩

/-- C1 witness: the amended statement at a concrete input. -/
theorem claim1_delete_before_push_witness :
    (⟨"cocoa", "", false, "From Skylight"⟩ : GroceryItem) ∉
      (fullSyncPass ⟨[⟨"cocoa", "", false, "From Skylight"⟩], []⟩).app ∧
    normName "cocoa" ∈
      allSkylightNames (fullSyncPass ⟨[⟨"cocoa", "", false, "From Skylight"⟩], []⟩).ext :=
  claim1_delete_before_push _ _ (by decide) (by decide) (by decide) (by decide)

/-- C2 counterexample: a successful fetch that returns an empty item set
does not abort the pass; the delete phase runs against the empty
snapshot and erases the unchecked synced item. -/
theorem claim2_empty_fetch_deletes_cex :
    runEdgePass (some []) [⟨"milk", "dairy", false, "From Skylight"⟩] = [] ∧
    ([⟨"milk", "dairy", false, "From Skylight"⟩] : List GroceryItem) ≠ [] := by
  decide

/-- C2 (amended): if the fetch of the external item set fails, the edge
function raises before any database write, so the pass deletes nothing
and the app item set is unchanged; but when the fetch succeeds with an
empty item set the delete phase does run, and every unchecked item
carrying the sync marker is deleted. -/
theorem claim2_fetch_failure_aborts :
    (∀ app : List GroceryItem, runEdgePass none app = app) ∧
    (∀ (app : List GroceryItem) (a : GroceryItem), a ∈ app →
      a.notes = "From Skylight" → a.is_checked = false →
      a ∉ runEdgePass (some []) app) := by
  refine ⟨fun _ => rfl, fun app a _ hn hc => ?_⟩
  exact deleted_of_absent hn hc (by simp [allSkylightNames])

/-- C2 witness: the amended statement at concrete inputs. -/
theorem claim2_fetch_failure_aborts_witness :
    runEdgePass none [⟨"milk", "dairy", true, ""⟩] = [⟨"milk", "dairy", true, ""⟩] ∧
    (⟨"jam", "", false, "From Skylight"⟩ : GroceryItem) ∉
      runEdgePass (some []) [⟨"jam", "", false, "From Skylight"⟩] :=
  ⟨claim2_fetch_failure_aborts.1 _,
   claim2_fetch_failure_aborts.2 _ _ (by decide) (by decide) (by decide)⟩

/-- C3 counterexample: a checked app item without the sync marker whose
normalized name is absent from the fetched snapshot is not deleted by
the pass. -/
theorem claim3_all_absent_deleted_cex :
    normName "milk" ∉ allSkylightNames [⟨"bread", "incomplete"⟩] ∧
    (⟨"milk", "dairy", true, ""⟩ : GroceryItem) ∈
      syncFromSkylightApp [⟨"milk", "dairy", true, ""⟩] [⟨"bread", "incomplete"⟩] := by
  decide

/-- C3 (amended): the delete phase removes exactly the narrower class:
every app item that is unchecked, carries the sync marker in its notes
field, and whose normalized name is absent from the fetched snapshot is
deleted; checked items and items without the marker are retained. -/
theorem claim3_synced_unchecked_absent_deleted (app : List GroceryItem)
    (ext : List SkylightItem) (a : GroceryItem)
    (hn : a.notes = "From Skylight") (hc : a.is_checked = false)
    (habs : normName a.name ∉ allSkylightNames ext) :
    a ∉ syncFromSkylightApp app ext :=
  deleted_of_absent hn hc habs

/-- C3 witness: the amended statement at a concrete input. -/
theorem claim3_synced_unchecked_absent_deleted_witness :
    (⟨"tea", "", false, "From Skylight"⟩ : GroceryItem) ∉
      syncFromSkylightApp [⟨"tea", "", false, "From Skylight"⟩, ⟨"jam", "", true, ""⟩]
        [⟨"rice", "incomplete"⟩] :=
  claim3_synced_unchecked_absent_deleted _ _ _ (by decide) (by decide) (by decide)

/-- C4 counterexample: with no intervening changes, the second full pass
still mutates both stores on this input: the unchecked synced item
deleted and re-pushed by the first pass is pulled back into the app list,
and the push (which has no dedup) re-adds the unchecked item to the
external list. -/
theorem claim4_idempotence_cex :
    (fullSyncPass (fullSyncPass
        ⟨[⟨"milk", "dairy", false, "From Skylight"⟩, ⟨"eggs", "dairy", false, ""⟩],
          [⟨"eggs", "incomplete"⟩]⟩)).app ≠
      (fullSyncPass
        ⟨[⟨"milk", "dairy", false, "From Skylight"⟩, ⟨"eggs", "dairy", false, ""⟩],
          [⟨"eggs", "incomplete"⟩]⟩).app ∧
    (fullSyncPass (fullSyncPass
        ⟨[⟨"milk", "dairy", false, "From Skylight"⟩, ⟨"eggs", "dairy", false, ""⟩],
          [⟨"eggs", "incomplete"⟩]⟩)).ext ≠
      (fullSyncPass
        ⟨[⟨"milk", "dairy", false, "From Skylight"⟩, ⟨"eggs", "dairy", false, ""⟩],
          [⟨"eggs", "incomplete"⟩]⟩).ext := by
  decide

/-- C4 (amended): the second of two back-to-back full passes never
deletes an app item, and when the first pass had nothing to delete the
app item set is a fixed point of the second pass; the second pass is
still not a no-op in general, because the push re-adds every unchecked
item to the external list and a first-pass deletion is undone by the
second pull. -/
theorem claim4_second_pass_no_deletion (s : SyncState) :
    (∀ a ∈ (fullSyncPass s).app, a ∈ (fullSyncPass (fullSyncPass s)).app) ∧
    (itemsToDelete s.app s.ext = [] →
      (fullSyncPass (fullSyncPass s)).app = (fullSyncPass s).app) :=
  ⟨fun _ ha => second_pass_superset ha, second_pass_app_eq⟩

/-- C4 witness: the amended statement at a concrete input where the
first pass has nothing to delete. -/
theorem claim4_second_pass_no_deletion_witness :
    (fullSyncPass (fullSyncPass ⟨[⟨"milk", "dairy", false, ""⟩], []⟩)).app =
      (fullSyncPass ⟨[⟨"milk", "dairy", false, ""⟩], []⟩).app :=
  (claim4_second_pass_no_deletion _).2 (by decide)

/-- C5 counterexample: an unchecked item present only on the app list
but carrying the sync marker is erased by the pass, not preserved. -/
theorem claim5_app_only_cex :
    (⟨"cereal", "pantry", false, "From Skylight"⟩ : GroceryItem) ∈
      ({ app := [⟨"cereal", "pantry", false, "From Skylight"⟩],
         ext := [⟨"bread", "incomplete"⟩] } : SyncState).app ∧
    normName "cereal" ∉ allSkylightNames [⟨"bread", "incomplete"⟩] ∧
    (⟨"cereal", "pantry", false, "From Skylight"⟩ : GroceryItem) ∉
      (fullSyncPass { app := [⟨"cereal", "pantry", false, "From Skylight"⟩],
                      ext := [⟨"bread", "incomplete"⟩] }).app := by
  decide

/-- C5 (amended): an unchecked app-only item that does not carry the
sync marker is still present after the pass, and its name is present on
the external list afterwards (the push pushes every unchecked item). -/
theorem claim5_app_only_unsynced_preserved (s : SyncState) (a : GroceryItem)
    (ha : a ∈ s.app) (hc : a.is_checked = false)
    (hn : a.notes ≠ "From Skylight")
    (_honly : normName a.name ∉ allSkylightNames s.ext) :
    a ∈ (fullSyncPass s).app ∧
      normName a.name ∈ allSkylightNames (fullSyncPass s).ext :=
  ⟨survive_of_keep ha (fun h => absurd h hn), norm_mem_fullPass_ext ha hc⟩

/-- C5 witness: the amended statement at a concrete input. -/
theorem claim5_app_only_unsynced_preserved_witness :
    (⟨"eggs", "dairy", false, ""⟩ : GroceryItem) ∈
      (fullSyncPass ⟨[⟨"eggs", "dairy", false, ""⟩], []⟩).app ∧
    normName "eggs" ∈
      allSkylightNames (fullSyncPass ⟨[⟨"eggs", "dairy", false, ""⟩], []⟩).ext :=
  claim5_app_only_unsynced_preserved _ _ (by decide) (by decide) (by decide)
    (by decide)

/-- C6 counterexample: a fetched item marked complete is filtered out
before the insert loop, so it is not inserted even though its normalized
name is absent from the app list. -/
theorem claim6_complete_not_pulled_cex :
    (⟨"milk", "complete"⟩ : SkylightItem) ∈ [(⟨"milk", "complete"⟩ : SkylightItem)] ∧
    normName "milk" ∉ existingNames ([] : List GroceryItem) ∧
    syncFromSkylightApp [] [⟨"milk", "complete"⟩] = [] := by
  decide

/-- C6 (amended): every fetched external item whose status is not
complete and whose normalized name is not already an app-list name is
inserted into the app list as unchecked, with the sync provenance marker
in its notes field, and auto-categorized from its label. -/
theorem claim6_pull_incomplete_absent (app : List GroceryItem)
    (ext : List SkylightItem) (e : SkylightItem) (he : e ∈ ext)
    (hs : e.status ≠ "complete")
    (habs : normName e.label ∉ existingNames app) :
    mkPulled e ∈ syncFromSkylightApp app ext ∧
      (mkPulled e).is_checked = false ∧
      (mkPulled e).notes = "From Skylight" ∧
      (mkPulled e).category = autoCategorize e.label :=
  ⟨pull_mem_of_new he hs habs, rfl, rfl, rfl⟩

/-- C6 witness: the amended statement at a concrete input. -/
theorem claim6_pull_incomplete_absent_witness :
    mkPulled ⟨"bread", "incomplete"⟩ ∈
      syncFromSkylightApp [⟨"jam", "", false, ""⟩] [⟨"bread", "incomplete"⟩] ∧
    (mkPulled ⟨"bread", "incomplete"⟩).is_checked = false ∧
    (mkPulled ⟨"bread", "incomplete"⟩).notes = "From Skylight" ∧
    (mkPulled ⟨"bread", "incomplete"⟩).category = autoCategorize "bread" :=
  claim6_pull_incomplete_absent _ _ _ (by decide) (by decide) (by decide)

/-- C10: a reconciliation pass never deletes a checked app item, nor an
app item whose notes field is not the sync marker: every such item is
still on the list after the pass, whatever the fetched snapshot. -/
theorem claim10_delete_only_synced_unchecked (app : List GroceryItem)
    (ext : List SkylightItem) (a : GroceryItem) (ha : a ∈ app)
    (h : a.is_checked = true ∨ a.notes ≠ "From Skylight") :
    a ∈ syncFromSkylightApp app ext :=
  survive_of_keep ha (fun hn hc => by
    rcases h with h | h
    · simp [h] at hc
    · exact absurd hn h)

/-- C10 witness: a checked synced item absent from the snapshot is
retained. -/
theorem claim10_delete_only_synced_unchecked_witness :
    (⟨"milk", "dairy", true, "From Skylight"⟩ : GroceryItem) ∈
      syncFromSkylightApp [⟨"milk", "dairy", true, "From Skylight"⟩] [] :=
  claim10_delete_only_synced_unchecked _ _ _ (by decide) (Or.inl (by decide))

/-! ## Claim theorems: parser and categorizer -/

/-- C8: the parser splits on commas and newlines only at parenthesis
depth zero and extracts a trailing parenthesized suffix into the notes
field: the claimed input yields exactly two items, chips with notes and
milk without; a nested group is kept intact; a newline splits. -/
theorem claim8_parser_example :
    parseItems "chips (sour cream and onion), milk" =
      [⟨"chips", "sour cream and onion"⟩, ⟨"milk", ""⟩] ∧
    parseItems "x (a, (b, c)), y" = [⟨"x", "a, (b, c)"⟩, ⟨"y", ""⟩] ∧
    parseItems "milk\neggs" = [⟨"milk", ""⟩, ⟨"eggs", ""⟩] := by
  decide

/-- C9 counterexample: an override entry whose category is the empty
string is present in the table, yet the categorizer does not return it:
the JS truthiness test skips it and keyword matching answers instead. -/
theorem claim9_empty_override_cex :
    lookupOverride [("milk", "")] (lowerS "milk") = some "" ∧
    categorizeItem "milk" [("milk", "")] ≠ "" := by
  decide

/-- C9 (amended): an override with a non-empty category always wins,
whatever keyword matching would answer; with no override entry the
categorizer answers by the ordered keyword chain (first match in the
priority order bakery, cheese, meat, pantry, dairy, produce, frozen,
beverages, snacks, household, else the empty string); in particular
whole milk yields dairy, and a name matching both bakery and cheese
keywords yields bakery. -/
theorem claim9_override_precedence :
    (∀ (name : String) (ov : List (String × String)) (c : String),
      lookupOverride ov (lowerS name) = some c → c ≠ "" →
      categorizeItem name ov = c) ∧
    (∀ (name : String) (ov : List (String × String)),
      lookupOverride ov (lowerS name) = none →
      categorizeItem name ov = autoCategorize name) ∧
    autoCategorize "whole milk" = "dairy" ∧
    autoCategorize "bread and cheese" = "bakery" ∧
    categorizeItem "whole milk" [("whole milk", "household")] = "household" := by
  refine ⟨?_, ?_, by decide, by decide, by decide⟩
  · intro name ov c h hc
    simp [categorizeItem, h, hc]
  · intro name ov h
    simp [categorizeItem, h]

/-- C9 witness: the override branch of the amended statement at a
concrete input where keyword matching would answer differently. -/
theorem claim9_override_precedence_witness :
    categorizeItem "bread" [("bread", "meat")] = "meat" :=
  claim9_override_precedence.1 "bread" [("bread", "meat")] "meat" (by decide)
    (by decide)

/-! ## Frequent-item recommender

`getCommonItemsFromHistory` (receive-sms edge function, mirrored in the
client): given archived lists ordered most recent first (the fetch is
limited to 10), return nothing with fewer than 2 lists; otherwise an item
qualifies when its lowercased name appears (at least once per list,
via a per-list seen set) on at least 2 of the last 3 lists, or on at
least 4 of the last 10 (the second check is skipped with fewer than 4
lists and never excludes a key already collected); each qualifying key is
represented by the first matching item found across the lists. -/

structure HistItem where
  name : String
  category : String
  quantity : String
deriving DecidableEq, Repr

structure ArchivedList where
  items : List HistItem
deriving DecidableEq, Repr

/-- The counting key: `item.name.toLowerCase()`. -/
def keyOf (i : HistItem) : String := lowerS i.name

/-- Does an archived list contain an item with this key? -/
def listHasKey (l : ArchivedList) (key : String) : Bool :=
  l.items.any (fun i => decide (keyOf i = key))

/-- On how many of these lists does the key appear (the per-list `seen`
set makes each list count at most once)? -/
def appearCount (ls : List ArchivedList) (key : String) : Nat :=
  (ls.filter (fun l => listHasKey l key)).length

/-- First-occurrence dedup, as JS object-key insertion order gives. -/
def dedupKeys (seen : List String) : List String → List String
  | [] => []
  | a :: l =>
    if containsStr seen a then dedupKeys seen l
    else a :: dedupKeys (a :: seen) l

/-- All distinct keys occurring across the given lists. -/
def allKeys (ls : List ArchivedList) : List String :=
  dedupKeys [] (ls.flatMap (fun l => l.items.map keyOf))

/-- The `source` lookup: first item across the lists with this key. -/
def sourceFor (ls : List ArchivedList) (key : String) : Option HistItem :=
  (ls.flatMap (fun l => l.items)).find? (fun i => decide (keyOf i = key))

/-- The record stored for a qualifying key: the source item with an
empty category replaced by `autoCategorize` (JS falsy fallback). -/
def mkCommon (i : HistItem) : HistItem :=
  ⟨i.name, if i.category = "" then autoCategorize i.name else i.category,
    i.quantity⟩

/-- Keys qualifying by the 2-of-last-3 rule (guarded on having at least
2 of those lists, as in the source). -/
def recencyKeys3 (archived : List ArchivedList) : List String :=
  if 2 ≤ (archived.take 3).length then
    (allKeys (archived.take 3)).filter
      (fun k => decide (2 ≤ appearCount (archived.take 3) k))
  else []

/-- Keys qualifying by the 4-of-last-10 rule and not already collected
(guarded on having at least 4 lists, as in the source). -/
def recencyKeys10 (archived : List ArchivedList) : List String :=
  if 4 ≤ (archived.take 10).length then
    (allKeys (archived.take 10)).filter
      (fun k => decide (4 ≤ appearCount (archived.take 10) k) &&
        !containsStr (recencyKeys3 archived) k)
  else []

/-- `getCommonItemsFromHistory`: nothing with fewer than 2 archived
lists; otherwise the 2-of-3 entries followed by the new 4-of-10
entries, each realized by its first source item. -/
def getCommonItemsFromHistory (archived : List ArchivedList) : List HistItem :=
  if archived.length < 2 then []
  else
    (recencyKeys3 archived).filterMap
        (fun k => (sourceFor (archived.take 3) k).map mkCommon) ++
      (recencyKeys10 archived).filterMap
        (fun k => (sourceFor (archived.take 10) k).map mkCommon)

/-! ## Helper lemmas about the recommender -/

theorem mem_dedupKeys {x : String} :
    ∀ (l seen : List String), x ∈ dedupKeys seen l ↔ (x ∈ l ∧ x ∉ seen)
  | [], seen => by simp [dedupKeys]
  | a :: l, seen => by
    simp only [dedupKeys]
    by_cases hb : a ∈ seen
    · rw [if_pos ((containsStr_iff _ _).mpr hb), mem_dedupKeys l seen]
      constructor
      · rintro ⟨h1, h2⟩
        exact ⟨List.mem_cons_of_mem _ h1, h2⟩
      · rintro ⟨h1, h2⟩
        rcases List.mem_cons.mp h1 with rfl | h1
        · exact absurd hb h2
        · exact ⟨h1, h2⟩
    · rw [if_neg (fun hc => hb ((containsStr_iff _ _).mp hc))]
      rw [List.mem_cons, mem_dedupKeys l (a :: seen)]
      constructor
      · rintro (rfl | ⟨h1, h2⟩)
        · exact ⟨List.mem_cons_self _ _, hb⟩
        · exact ⟨List.mem_cons_of_mem _ h1,
            fun hs => h2 (List.mem_cons_of_mem _ hs)⟩
      · rintro ⟨h1, h2⟩
        by_cases hxa : x = a
        · exact Or.inl hxa
        · refine Or.inr ⟨?_, ?_⟩
          · rcases List.mem_cons.mp h1 with h | h
            · exact absurd h hxa
            · exact h
          · intro hs
            rcases List.mem_cons.mp hs with h | h
            · exact hxa h
            · exact h2 h

theorem nodup_dedupKeys : ∀ (l seen : List String), (dedupKeys seen l).Nodup
  | [], seen => by simp [dedupKeys]
  | a :: l, seen => by
    simp only [dedupKeys]
    by_cases hb : a ∈ seen
    · rw [if_pos ((containsStr_iff _ _).mpr hb)]
      exact nodup_dedupKeys l seen
    · rw [if_neg (fun hc => hb ((containsStr_iff _ _).mp hc))]
      refine List.nodup_cons.mpr ⟨?_, nodup_dedupKeys l (a :: seen)⟩
      intro hmem
      exact ((mem_dedupKeys _ _).mp hmem).2 (List.mem_cons_self a seen)

theorem mem_allKeys {k : String} {ls : List ArchivedList} :
    k ∈ allKeys ls ↔ ∃ l ∈ ls, ∃ i ∈ l.items, keyOf i = k := by
  simp [allKeys, mem_dedupKeys, List.mem_flatMap, List.mem_map]

theorem appearCount_le (ls : List ArchivedList) (k : String) :
    appearCount ls k ≤ ls.length :=
  List.length_filter_le _ _

theorem mem_allKeys_of_appear {ls : List ArchivedList} {k : String}
    (h : 1 ≤ appearCount ls k) : k ∈ allKeys ls := by
  rw [appearCount] at h
  obtain ⟨l, hl⟩ := List.exists_mem_of_ne_nil _ (List.length_pos.mp h)
  obtain ⟨hls, hkey⟩ := List.mem_filter.mp hl
  simp only [listHasKey, List.any_eq_true, decide_eq_true_eq] at hkey
  obtain ⟨i, hi, hik⟩ := hkey
  exact mem_allKeys.mpr ⟨l, hls, i, hi, hik⟩

theorem sourceFor_isSome {ls : List ArchivedList} {k : String}
    (h : k ∈ allKeys ls) :
    ∃ i, sourceFor ls k = some i ∧ keyOf i = k := by
  obtain ⟨l, hl, i, hi, hik⟩ := mem_allKeys.mp h
  have hmem : i ∈ ls.flatMap (fun l => l.items) := List.mem_flatMap.mpr ⟨l, hl, hi⟩
  cases hfind : (ls.flatMap fun l => l.items).find? (fun i => decide (keyOf i = k)) with
  | none =>
    have hnone := List.find?_eq_none.mp hfind i hmem
    simp [hik] at hnone
  | some j =>
    have hj := List.find?_some hfind
    simp only [decide_eq_true_eq] at hj
    exact ⟨j, by simp [sourceFor, hfind], hj⟩

theorem filterMap_source_keys (ls : List ArchivedList) :
    ∀ keys : List String, (∀ k ∈ keys, k ∈ allKeys ls) →
      ((keys.filterMap (fun k => (sourceFor ls k).map mkCommon)).map keyOf) = keys
  | [], _ => rfl
  | k :: keys, h => by
    obtain ⟨i, hsrc, hik⟩ := sourceFor_isSome (h k (List.mem_cons_self _ _))
    have hkey : keyOf (mkCommon i) = k := by simpa [keyOf, mkCommon] using hik
    simp only [List.filterMap_cons, hsrc, Option.map_some']
    rw [List.map_cons,
      filterMap_source_keys ls keys (fun x hx => h x (List.mem_cons_of_mem _ hx)),
      hkey]

theorem mem_recencyKeys3 {archived : List ArchivedList} {k : String}
    (hlen : 2 ≤ archived.length) :
    k ∈ recencyKeys3 archived ↔ 2 ≤ appearCount (archived.take 3) k := by
  have hg : 2 ≤ (archived.take 3).length := by
    rw [List.length_take]
    exact le_min (by norm_num) hlen
  rw [recencyKeys3, if_pos hg]
  simp only [List.mem_filter, decide_eq_true_eq]
  constructor
  · rintro ⟨-, h⟩
    exact h
  · intro h
    exact ⟨mem_allKeys_of_appear (le_trans (by norm_num) h), h⟩

theorem mem_recencyKeys10 {archived : List ArchivedList} {k : String} :
    k ∈ recencyKeys10 archived ↔
      (4 ≤ (archived.take 10).length ∧
        4 ≤ appearCount (archived.take 10) k ∧
        k ∉ recencyKeys3 archived) := by
  rw [recencyKeys10]
  by_cases hg : 4 ≤ (archived.take 10).length
  · rw [if_pos hg]
    simp only [List.mem_filter, Bool.and_eq_true, decide_eq_true_eq,
      Bool.not_eq_true', containsStr_eq_false]
    constructor
    · rintro ⟨-, h4, hn⟩
      exact ⟨hg, h4, hn⟩
    · rintro ⟨-, h4, hn⟩
      exact ⟨mem_allKeys_of_appear (le_trans (by norm_num) h4), h4, hn⟩
  · rw [if_neg hg]
    constructor
    · intro h
      exact absurd h (List.not_mem_nil k)
    · rintro ⟨h4, -⟩
      exact absurd h4 hg

theorem nodup_recencyKeys3 (archived : List ArchivedList) :
    (recencyKeys3 archived).Nodup := by
  rw [recencyKeys3]
  split
  · exact List.Nodup.filter _ (nodup_dedupKeys _ _)
  · exact List.nodup_nil

theorem nodup_recencyKeys10 (archived : List ArchivedList) :
    (recencyKeys10 archived).Nodup := by
  rw [recencyKeys10]
  split
  · exact List.Nodup.filter _ (nodup_dedupKeys _ _)
  · exact List.nodup_nil

theorem commonKeys_eq {archived : List ArchivedList}
    (hlen : ¬ archived.length < 2) :
    (getCommonItemsFromHistory archived).map keyOf =
      recencyKeys3 archived ++ recencyKeys10 archived := by
  rw [getCommonItemsFromHistory, if_neg hlen, List.map_append]
  congr 1
  · refine filterMap_source_keys _ _ fun k hk => ?_
    have h2 := (mem_recencyKeys3 (not_lt.mp hlen)).mp hk
    exact mem_allKeys_of_appear (le_trans (by norm_num) h2)
  · refine filterMap_source_keys _ _ fun k hk => ?_
    have h4 := (mem_recencyKeys10.mp hk).2.1
    exact mem_allKeys_of_appear (le_trans (by norm_num) h4)

/-! ## Claim theorem: recommender -/

/-- C7: with fewer than 2 archived lists the recommender returns
nothing; otherwise an item key is returned exactly when it appears on at
least 2 of the last 3 archived lists or at least 4 of the last 10
(counted once per list, regardless of checked state); returned keys are
pairwise distinct. -/
theorem claim7_recommender_rule (archived : List ArchivedList) :
    (archived.length < 2 → getCommonItemsFromHistory archived = []) ∧
    (∀ key : String,
      (∃ r ∈ getCommonItemsFromHistory archived, lowerS r.name = key) ↔
        (2 ≤ archived.length ∧
          (2 ≤ appearCount (archived.take 3) key ∨
            4 ≤ appearCount (archived.take 10) key))) ∧
    ((getCommonItemsFromHistory archived).map (fun r => lowerS r.name)).Nodup := by
  by_cases hlen : archived.length < 2
  · refine ⟨fun _ => by rw [getCommonItemsFromHistory, if_pos hlen], ?_, ?_⟩
    · intro key
      rw [getCommonItemsFromHistory, if_pos hlen]
      constructor
      · rintro ⟨r, hr, -⟩
        exact absurd hr (List.not_mem_nil r)
      · rintro ⟨h2, -⟩
        omega
    · rw [getCommonItemsFromHistory, if_pos hlen]
      simp
  · have hlen2 : 2 ≤ archived.length := not_lt.mp hlen
    have hkeys : (getCommonItemsFromHistory archived).map (fun r => lowerS r.name) =
        recencyKeys3 archived ++ recencyKeys10 archived := commonKeys_eq hlen
    refine ⟨fun h => absurd h hlen, ?_, ?_⟩
    · intro key
      have hmm : (∃ r ∈ getCommonItemsFromHistory archived, lowerS r.name = key) ↔
          key ∈ (getCommonItemsFromHistory archived).map (fun r => lowerS r.name) := by
        simp [List.mem_map]
      rw [hmm, hkeys, List.mem_append, mem_recencyKeys3 hlen2, mem_recencyKeys10]
      constructor
      · rintro (h | ⟨-, h4, -⟩)
        · exact ⟨hlen2, Or.inl h⟩
        · exact ⟨hlen2, Or.inr h4⟩
      · rintro ⟨-, h | h⟩
        · exact Or.inl h
        · by_cases h3 : 2 ≤ appearCount (archived.take 3) key
          · exact Or.inl h3
          · exact Or.inr ⟨le_trans h (appearCount_le _ _), h,
              fun hc => h3 ((mem_recencyKeys3 hlen2).mp hc)⟩
    · rw [hkeys]
      exact List.Nodup.append (nodup_recencyKeys3 _) (nodup_recencyKeys10 _)
        (fun a ha hb => ((mem_recencyKeys10.mp hb).2.2) ha)

/-- C7 witness: the rule at a concrete 3-list history where milk appears
on lists 1 and 3 but not 2, so it qualifies by the 2-of-3 rule. -/
theorem claim7_recommender_rule_witness :
    ∃ r ∈ getCommonItemsFromHistory
        [⟨[⟨"Milk", "", ""⟩]⟩, ⟨[⟨"eggs", "", ""⟩]⟩, ⟨[⟨"milk", "dairy", "1"⟩]⟩],
      lowerS r.name = "milk" :=
  ((claim7_recommender_rule
      [⟨[⟨"Milk", "", ""⟩]⟩, ⟨[⟨"eggs", "", ""⟩]⟩, ⟨[⟨"milk", "dairy", "1"⟩]⟩]).2.1
    "milk").mpr ⟨by decide, Or.inl (by decide)⟩

end SharedList
